import Mathlib

/-!
# Shallow embedding of the ShoutWars server synchronization core

This file embeds the core data model and operations of the ShoutWars server
(`sync_record.rs`, `room.rs`, `room_list.rs`) as executable Lean definitions
and proves properties about them.

Modelling conventions:
* `uuid::Uuid` is modelled as `Nat`; the nil UUID is `0`.  Time-ordered v7
  UUIDs are modelled by passing the freshly generated id as an explicit
  argument to the operation that would generate it.
* `std::time::Instant` is modelled as `Nat`, passed as an explicit `now`
  argument where the source calls `Instant::now()`.
* `BTreeMap` is modelled as an association list ordered by key.  A genuine
  `BTreeMap::insert` is `omInsert` (sorted insert, replacing an equal key);
  an in-place mutation of a value reached through a shared `Arc` handle is
  `omUpdate` (pointwise value replacement that never reorders entries).
* Rust panics (`unwrap()` on `None`) are modelled by returning `none` from
  an `Option`-valued function.
* `serde_json::Value` payloads are opaque to the core; they are modelled as
  `String`.
* Fallible operations return `Except AgError`; since Rust mutations are not
  rolled back when an error is returned, state-mutating fallible operations
  return the (possibly mutated) state alongside the `Except` result.
-/

/-- Error type of the server (from `main.rs`).  The serde/rmp wrapper payloads
are irrelevant to the core, so those variants carry no data here. -/
inductive AgError where
  | SerdeJsonError : AgError
  | UuidError : AgError
  | NotFoundError : String → AgError
  | ForbiddenError : String → AgError
  | TooManyRequestsError : String → AgError
  | RmpEncodeError : AgError
  | RmpDecodeError : AgError
  | BadRequestError : String → AgError
  | UnauthorizedError : String → AgError
deriving DecidableEq, Repr

/-! ## Ordered-map model of `BTreeMap` (keys are `Nat` UUIDs) -/

/-- `BTreeMap::get`. -/
def omFind {α : Type} (k : Nat) : List (Nat × α) → Option α
  | [] => none
  | e :: rest => if k = e.1 then some e.2 else omFind k rest

/-- `BTreeMap::insert`: sorted insert, a repeated key replaces the entry. -/
def omInsert {α : Type} (k : Nat) (v : α) : List (Nat × α) → List (Nat × α)
  | [] => [(k, v)]
  | e :: rest =>
    if k < e.1 then (k, v) :: e :: rest
    else if k = e.1 then (k, v) :: rest
    else e :: omInsert k v rest

/-- In-place replacement of the value stored at key `k` (mutation through a
shared `Arc` handle: the entry keeps its position, only its value changes). -/
def omUpdate {α : Type} (k : Nat) (v : α) (m : List (Nat × α)) : List (Nat × α) :=
  m.map fun e => if e.1 = k then (k, v) else e

/-- `BTreeMap::contains_key`. -/
def omContains {α : Type} (k : Nat) (m : List (Nat × α)) : Bool :=
  (omFind k m).isSome

/-- `BTreeMap::last_key_value` (greatest key; the last entry of a sorted list). -/
def omLast {α : Type} (m : List (Nat × α)) : Option (Nat × α) :=
  m.getLast?

/-- `BTreeMap::values` in iteration (key) order. -/
def omValues {α : Type} (m : List (Nat × α)) : List α :=
  m.map (·.2)

/-- `BTreeMap::keys` in iteration order. -/
def omKeys {α : Type} (m : List (Nat × α)) : List Nat :=
  m.map (·.1)

/-- `BTreeMap::entry(k).or_insert(v)`: returns the stored value (inserting `v`
when absent) together with the resulting map. -/
def omEntryOrInsert {α : Type} (k : Nat) (v : α) (m : List (Nat × α)) :
    α × List (Nat × α) :=
  match omFind k m with
  | some w => (w, m)
  | none => (v, omInsert k v m)

/-! ## `sync_record.rs` -/

/-- `event_t`: one player contribution. `from` is a Lean keyword, hence `from_`;
the opaque JSON payload is modelled as a string. -/
structure event_t where
  id : Nat
  from_ : Nat
  type_ : String
  data : String
deriving DecidableEq, Repr

/-- `phase_t`: a user's phase within a sync record. -/
inductive phase_t where
  | CREATED
  | WAITING
  | SYNCING
  | SYNCED
deriving DecidableEq, Repr

/-- Numeric value of a phase, as in the Rust `enum` discriminants. -/
def phase_t.toNat : phase_t → Nat
  | .CREATED => 0
  | .WAITING => 1
  | .SYNCING => 2
  | .SYNCED => 3

instance : LT phase_t := ⟨fun a b => a.toNat < b.toNat⟩
instance : LE phase_t := ⟨fun a b => a.toNat ≤ b.toNat⟩

instance : DecidableRel (α := phase_t) (· < ·) :=
  fun a b => inferInstanceAs (Decidable (a.toNat < b.toNat))
instance : DecidableRel (α := phase_t) (· ≤ ·) :=
  fun a b => inferInstanceAs (Decidable (a.toNat ≤ b.toNat))

/-- `Iterator::max` over the phases of a map's values; `none` models the panic
of `.max().unwrap()` on an empty iterator. -/
def maxPhase : List phase_t → Option phase_t
  | [] => none
  | p :: ps => some (ps.foldl (fun a b => if a.toNat < b.toNat then b else a) p)

/-- `sync_record_t` together with its interior `sync_record_inner` state.
The maps are keyed by UUID (`Nat`). -/
structure sync_record_t where
  id : Nat
  reports : List (Nat × event_t)
  actions : List (Nat × event_t)
  users_phase : List (Nat × phase_t)
deriving DecidableEq, Repr

/-- `sync_record_t::new` (the freshly generated v7 UUID is passed in). -/
def sync_record_t.new (id : Nat) : sync_record_t :=
  { id := id, reports := [], actions := [], users_phase := [] }

/-- The phase a user reads from a record: the stored phase, `CREATED` when the
user has not been observed. -/
def phaseOf (r : sync_record_t) (uid : Nat) : phase_t :=
  (omFind uid r.users_phase).getD phase_t.CREATED

/-- One `for` loop of `add_events`: check `ev.from == from` then insert into
the *reports* map (the source inserts both loops' events into `reports`).
On a mismatch the error is returned and the insertions so far are kept. -/
def addEventsLoop (from_ : Nat) (msg : String) :
    List event_t → List (Nat × event_t) → Except AgError Unit × List (Nat × event_t)
  | [], reports => (Except.ok (), reports)
  | e :: rest, reports =>
    if e.from_ ≠ from_ then (Except.error (AgError.BadRequestError msg), reports)
    else addEventsLoop from_ msg rest (omInsert e.id e reports)

/-- `sync_record_t::add_events`.  Returns the `Result` together with the
record state, which on error keeps all mutations made before the failure.
Note the source slip: the second loop inserts *actions* into the `reports`
map (`lock.reports.insert(action.id, ...)`). -/
def sync_record_t.add_events (r : sync_record_t) (from_ : Nat)
    (new_reports new_actions : List event_t) :
    Except AgError Unit × sync_record_t :=
  let ph := (omEntryOrInsert from_ phase_t.CREATED r.users_phase).1
  let up := (omEntryOrInsert from_ phase_t.CREATED r.users_phase).2
  if phase_t.CREATED < ph then
    (Except.error (AgError.BadRequestError "Record already synced."),
     { r with users_phase := up })
  else
    let l1 := addEventsLoop from_ "Invalid report from." new_reports r.reports
    match l1.1 with
    | Except.error e => (Except.error e, { r with reports := l1.2, users_phase := up })
    | Except.ok _ =>
      let l2 := addEventsLoop from_ "Invalid action from." new_actions l1.2
      match l2.1 with
      | Except.error e =>
        (Except.error e, { r with reports := l2.2, users_phase := up })
      | Except.ok _ =>
        (Except.ok (),
         { r with reports := l2.2, users_phase := omInsert from_ phase_t.WAITING up })

/-- `sync_record_t::get_reports`: ordered snapshot of the reports map. -/
def sync_record_t.get_reports (r : sync_record_t) : List event_t :=
  omValues r.reports

/-- `sync_record_t::get_actions`: ordered snapshot of the actions map. -/
def sync_record_t.get_actions (r : sync_record_t) : List event_t :=
  omValues r.actions

/-- `sync_record_t::get_phase`: reads the user's phase, inserting `CREATED`
when absent (so it mutates the record). -/
def sync_record_t.get_phase (r : sync_record_t) (uid : Nat) :
    phase_t × sync_record_t :=
  ((omEntryOrInsert uid phase_t.CREATED r.users_phase).1,
   { r with users_phase := (omEntryOrInsert uid phase_t.CREATED r.users_phase).2 })

/-- `sync_record_t::advance_phase`: monotone set, returns whether it advanced. -/
def sync_record_t.advance_phase (r : sync_record_t) (uid : Nat) (np : phase_t) :
    Bool × sync_record_t :=
  let ph := (omEntryOrInsert uid phase_t.CREATED r.users_phase).1
  let up := (omEntryOrInsert uid phase_t.CREATED r.users_phase).2
  if np ≤ ph then (false, { r with users_phase := up })
  else (true, { r with users_phase := omInsert uid np up })

/-- `sync_record_t::get_max_phase`: `values().max().unwrap()`; `none` models
the panic on an empty phase map. -/
def sync_record_t.get_max_phase (r : sync_record_t) : Option phase_t :=
  maxPhase (omValues r.users_phase)

/-! ## `room.rs` -/

/-- `user_t`.  `last_time` is an abstract `Instant` (`Nat`). -/
structure user_t where
  id : Nat
  name : String
  last_sync_id : Nat
  last_time : Nat
deriving DecidableEq, Repr

def user_t.NAME_MAX_LENGTH : Nat := 32

/-- `user_t::set_name`: validates the byte length (Rust `str::len`), and on
error leaves the user unchanged. -/
def user_t.set_name (u : user_t) (new_name : String) :
    Except AgError Unit × user_t :=
  if new_name.utf8ByteSize = 0 ∨ user_t.NAME_MAX_LENGTH < new_name.utf8ByteSize then
    (Except.error (AgError.BadRequestError
      ("Invalid user name length: " ++ toString new_name.utf8ByteSize ++
       ". Must be between 1 and 32.")), u)
  else (Except.ok (), { u with name := new_name })

/-- `user_t::new`: builds the user with an empty name, nil `last_sync_id`, then
calls `set_name(name)` — whose `Result` the source DISCARDS (`this.set_name(name);`
without `?`) — and returns `Ok(this)` unconditionally. -/
def user_t.new (id : Nat) (now : Nat) (name : String) : Except AgError user_t :=
  let this : user_t := { id := id, name := "", last_sync_id := 0, last_time := now }
  let this := (this.set_name name).2
  Except.ok this

/-- `user_t::update_last`: stamps `last_sync_id` and `last_time = now`. -/
def user_t.update_last (u : user_t) (new_sync_id : Nat) (now : Nat) : user_t :=
  { u with last_sync_id := new_sync_id, last_time := now }

/-- `room_t` together with its interior `room_inner` state. -/
structure room_t where
  id : Nat
  version : String
  name : String
  size : Nat
  lobby_lifetime : Nat
  game_lifetime : Nat
  expire_time : Nat
  users : List (Nat × user_t)
  in_lobby : Bool
  info : String
  sync_records : List (Nat × sync_record_t)
deriving DecidableEq, Repr

def room_t.VERSION_MAX_LENGTH : Nat := 32
def room_t.SIZE_MAX : Nat := 4

/-- `room_t::new`.  The freshly generated room id and first record id are
passed in; the owner's `last_sync_id` is stamped to nil. -/
def room_t.new (version : String) (owner : user_t) (name : String) (size : Nat)
    (lobby_lifetime game_lifetime roomId recordId now : Nat) :
    Except AgError room_t :=
  if version.utf8ByteSize = 0 ∨ room_t.VERSION_MAX_LENGTH < version.utf8ByteSize then
    Except.error (AgError.BadRequestError
      ("Invalid room version length: " ++ toString version.utf8ByteSize ++
       ". Must be between 1 and 32."))
  else if size < 2 ∨ room_t.SIZE_MAX < size then
    Except.error (AgError.BadRequestError
      ("Invalid room size: " ++ toString size ++ ". Must be between 2 and 4."))
  else
    let owner := owner.update_last 0 now
    Except.ok
      { id := roomId, version := version, name := name, size := size
        lobby_lifetime := lobby_lifetime, game_lifetime := game_lifetime
        expire_time := now + lobby_lifetime
        users := [(owner.id, owner)], in_lobby := true, info := ""
        sync_records := [(recordId, sync_record_t.new recordId)] }

/-- `room_t::join`. -/
def room_t.join (room : room_t) (version : String) (user : user_t) (now : Nat) :
    Except AgError Unit × room_t :=
  if version ≠ room.version then
    (Except.error (AgError.BadRequestError
      ("Invalid room version: " ++ version ++ ". This roon version is " ++
       room.version ++ ".")), room)
  else if !room.in_lobby then
    (Except.error (AgError.ForbiddenError "Game already started."), room)
  else if room.size ≤ room.users.length then
    (Except.error (AgError.ForbiddenError
      ("Room is full. Max user count is " ++ toString room.size ++ ".")), room)
  else if omContains user.id room.users then
    (Except.error (AgError.ForbiddenError "User already in the room."), room)
  else
    let cursor :=
      if 1 < room.sync_records.length then
        ((omLast room.sync_records).map (·.1)).getD 0
      else 0
    let user := user.update_last cursor now
    (Except.ok (), { room with users := omInsert user.id user room.users })

/-- The consensus check of `room_t::sync`:
`users.keys().any(|id| record.get_phase(id) <= CREATED)`.
`get_phase` mutates the record (observe = create) and `any` short-circuits. -/
def anyPhaseLeCreated (r : sync_record_t) : List Nat → Bool × sync_record_t
  | [] => (false, r)
  | uid :: rest =>
    if (r.get_phase uid).1 ≤ phase_t.CREATED then (true, (r.get_phase uid).2)
    else anyPhaseLeCreated (r.get_phase uid).2 rest

/-- The rollover check of `room_t::sync`:
`users.keys().any(|id| record.get_phase(id) <= CREATED || record.get_phase(id) >= SYNCED)`
with `get_phase` called (and mutating) once or twice per user, short-circuiting. -/
def rolloverAny (r : sync_record_t) : List Nat → Bool × sync_record_t
  | [] => (false, r)
  | uid :: rest =>
    if (r.get_phase uid).1 ≤ phase_t.CREATED then (true, (r.get_phase uid).2)
    else
      let r1 := (r.get_phase uid).2
      if phase_t.SYNCED ≤ (r1.get_phase uid).1 then (true, (r1.get_phase uid).2)
      else rolloverAny (r1.get_phase uid).2 rest

/-- The catch-up loop of `room_t::sync`: for every record with id strictly
greater than `cursor`, advance the caller's phase to `SYNCED` in place. -/
def advanceRange (uid cursor : Nat) (m : List (Nat × sync_record_t)) :
    List (Nat × sync_record_t) :=
  m.map fun e =>
    if cursor < e.1 then (e.1, (e.2.advance_phase uid phase_t.SYNCED).2) else e

/-- The straight-line tail of `room_t::sync` after the slow-joiner wait
(steps: advance to `SYNCING`, consensus check plus wait, advance to `SYNCED`,
catch-up slice, rollover check and possible append, bookmark update).
`rid` is the key of the current record, `record0` its state at entry (whose
`id` the final `update_last` uses), `record3`/`recs3` the current record and
log after the slow-joiner wait. -/
def room_t.syncFinish (room : room_t) (user_id rid : Nat)
    (record0 record3 : sync_record_t) (recs3 : List (Nat × sync_record_t))
    (nrid now : Nat) : Option (Except AgError (List sync_record_t) × room_t) :=
  let record4 := (record3.advance_phase user_id phase_t.SYNCING).2
  let recs4 := omUpdate rid record4 recs3
  -- wait for all users to sync
  let record5 := (anyPhaseLeCreated record4 (omKeys room.users)).2
  let recs5 := omUpdate rid record5 recs4
  let record6 := (record5.advance_phase user_id phase_t.SYNCED).2
  let recs6 := omUpdate rid record6 recs5
  match omFind user_id room.users with
  | none => none
  | some user =>
    let cursor := user.last_sync_id
    let recs7 := advanceRange user_id cursor recs6
    let slice :=
      (recs7.filter fun e => decide (cursor < e.1)).map (·.2)
    -- if all users synced, create new record
    let record7 := (omFind rid recs7).getD record6
    let roll := (rolloverAny record7 (omKeys room.users)).1
    let record8 := (rolloverAny record7 (omKeys room.users)).2
    let recs8 := omUpdate rid record8 recs7
    let recs9 :=
      if roll then omInsert nrid (sync_record_t.new nrid) recs8
      else recs8
    let userx := user.update_last record0.id now
    some (Except.ok slice,
          { room with users := omInsert user_id userx room.users,
                      sync_records := recs9 })

/-- `room_t::sync`.  `nrid` models the fresh v7 UUID used if a new record is
appended, `now` the `Instant::now()` of the final `update_last`.  The
condition-variable waits release and reacquire the lock but change no room
state, so in this sequential model they only contribute the state mutations of
the `get_phase` calls in their guarding conditions.  A `none` result models a
panic (an `unwrap()` of `None`).  Note the source discards the `Result` of
`add_events` (line `record.add_events(&user_id, reports, actions);`). -/
def room_t.sync (room : room_t) (user_id : Nat)
    (reports actions : List event_t) (nrid now : Nat) :
    Option (Except AgError (List sync_record_t) × room_t) :=
  if !omContains user_id room.users then
    some (Except.error (AgError.ForbiddenError "User not in the room."), room)
  else
    match omLast room.sync_records with
    | none => none
    | some (rid, record0) =>
      let ph := (record0.get_phase user_id).1
      let record1 := (record0.get_phase user_id).2
      let recs1 := omUpdate rid record1 room.sync_records
      if phase_t.CREATED < ph then
        some (Except.error (AgError.ForbiddenError "User already synced."),
              { room with sync_records := recs1 })
      else
        match record1.get_max_phase with
        | none => none
        | some mp =>
          if phase_t.SYNCED ≤ mp then
            some (Except.error (AgError.ForbiddenError "Room already synced."),
                  { room with sync_records := recs1 })
          else
            let record2 := (record1.add_events user_id reports actions).2
            let recs2 := omUpdate rid record2 recs1
            -- wait for users who didn't skip last sync
            match record2.get_max_phase with
            | none => none
            | some mp2 =>
              let waitStep : Option (sync_record_t × List (Nat × sync_record_t)) :=
                if mp2 ≤ phase_t.WAITING ∧ 1 < recs2.length then
                  match omLast recs2 with
                  | none => none
                  | some (k2, r2) =>
                    let r2x := (r2.get_phase user_id).2
                    let recs3 := omUpdate k2 r2x recs2
                    -- the timed wait itself does not change state
                    some (if k2 = rid then r2x else record2, recs3)
                else some (record2, recs2)
              match waitStep with
              | none => none
              | some (record3, recs3) =>
                room.syncFinish user_id rid record0 record3 recs3 nrid now

/-! ## `room_list.rs` -/

/-- The name index `name_to_id` is keyed by `String`; a plain association list
(the claims do not depend on name iteration order). -/
def amFind (k : String) : List (String × Nat) → Option Nat
  | [] => none
  | e :: rest => if k = e.1 then some e.2 else amFind k rest

def amContains (k : String) (m : List (String × Nat)) : Bool :=
  (amFind k m).isSome

/-- `room_list_t` together with its interior `room_list_inner` state. -/
structure room_list_t where
  limit : Nat
  lobby_lifetime : Nat
  game_lifetime : Nat
  rooms : List (Nat × room_t)
  name_to_id : List (String × Nat)
deriving DecidableEq, Repr

/-- `room_list_t::create`.  `name` models the 6-digit name produced by the
rejection loop (the loop exits only with a name absent from `name_to_id`,
which theorems assume as a hypothesis), `roomId`/`recordId` the fresh v7
UUIDs.  After constructing the room the source runs
`*lock.rooms.get_mut(&room.id).unwrap() = room.clone()` — `get_mut` on the
freshly generated (hence absent) key, so the `unwrap` panics, modelled by
`none`. -/
def room_list_t.create (rl : room_list_t) (version : String) (owner : user_t)
    (size : Nat) (name : String) (roomId recordId now : Nat) :
    Option (Except AgError room_t × room_list_t) :=
  if rl.limit ≤ rl.rooms.length then
    some (Except.error (AgError.ForbiddenError
      ("Room limit reached. Max room count is " ++ toString rl.limit ++ ".")), rl)
  else
    match room_t.new version owner name size rl.lobby_lifetime rl.game_lifetime
        roomId recordId now with
    | Except.error e => some (Except.error e, rl)
    | Except.ok room =>
      match omFind room.id rl.rooms with
      | none => none
      | some _ =>
        match amFind name rl.name_to_id with
        | none => none
        | some _ =>
          some (Except.ok room,
                { rl with rooms := omInsert room.id room rl.rooms,
                          name_to_id := (rl.name_to_id.map fun e =>
                            if e.1 = name then (name, room.id) else e) })

/-! ## Operation sequences on a sync record (for the monotonicity invariant) -/

/-- One public state-mutating operation of `sync_record_t`. -/
inductive recOp where
  | addEvents (from_ : Nat) (new_reports new_actions : List event_t)
  | advancePhase (uid : Nat) (np : phase_t)
  | getPhase (uid : Nat)
deriving DecidableEq, Repr

/-- State effect of one operation on a record. -/
def applyRecOp (r : sync_record_t) : recOp → sync_record_t
  | .addEvents f nr na => (r.add_events f nr na).2
  | .advancePhase u np => (r.advance_phase u np).2
  | .getPhase u => (r.get_phase u).2

/-! ## Concrete scenario states used by the closed theorems -/

/-- A member with nil `last_sync_id`. -/
def exUserA : user_t := { id := 1, name := "a", last_sync_id := 0, last_time := 0 }

/-- A second member with nil `last_sync_id`. -/
def exUserB : user_t := { id := 2, name := "b", last_sync_id := 0, last_time := 0 }

/-- A record (id 10) in which user 2 has already submitted (phase `WAITING`). -/
def exRecordMid : sync_record_t :=
  { id := 10, reports := [], actions := [], users_phase := [(2, phase_t.WAITING)] }

/-- An empty record with id 10. -/
def exRecordEmpty : sync_record_t := sync_record_t.new 10

/-- A two-member room whose current record still has user 2 mid-round. -/
def exRoomMid : room_t :=
  { id := 100, version := "v", name := "000001", size := 2
    lobby_lifetime := 600, game_lifetime := 1200, expire_time := 600
    users := [(1, exUserA), (2, exUserB)], in_lobby := true, info := ""
    sync_records := [(10, exRecordMid)] }

/-- A two-member room with an empty current record. -/
def exRoomFresh : room_t :=
  { exRoomMid with sync_records := [(10, exRecordEmpty)] }

/-- A single-member room with an empty current record. -/
def exRoomSolo : room_t :=
  { exRoomMid with users := [(1, exUserA)], sync_records := [(10, exRecordEmpty)] }

/-- A report event from user 1. -/
def exEvGood : event_t := { id := 3, from_ := 1, type_ := "t", data := "d" }

/-- A report event from user 2 (a `from` mismatch when submitted by user 1). -/
def exEvBad : event_t := { id := 4, from_ := 2, type_ := "t", data := "d" }

/-- An empty room registry with limit 5. -/
def exRegistry : room_list_t :=
  { limit := 5, lobby_lifetime := 600, game_lifetime := 1200,
    rooms := [], name_to_id := [] }

/-- Well-formedness of a record log: every entry's stored record carries the
entry's key as its id (true of every log the server builds, since records are
inserted under their own id). -/
def goodIds (m : List (Nat × sync_record_t)) : Prop :=
  ∀ e ∈ m, (e : Nat × sync_record_t).2.id = e.1

instance (m : List (Nat × sync_record_t)) : Decidable (goodIds m) :=
  inferInstanceAs (Decidable (∀ e ∈ m, _))

/-! # Theorems -/

/-! ## Basic facts about phases and the map model -/

theorem phase_t.lt_def (a b : phase_t) : a < b ↔ a.toNat < b.toNat := Iff.rfl

theorem phase_t.le_def (a b : phase_t) : a ≤ b ↔ a.toNat ≤ b.toNat := Iff.rfl

theorem phase_t.toNat_le_three (a : phase_t) : a.toNat ≤ 3 := by
  cases a <;> simp [phase_t.toNat]

theorem phase_t.toNat_inj {a b : phase_t} (h : a.toNat = b.toNat) : a = b := by
  cases a <;> cases b <;> simp_all [phase_t.toNat]

theorem phase_t.le_refl (a : phase_t) : a ≤ a := Nat.le_refl _

theorem phase_t.le_trans {a b c : phase_t} (h : a ≤ b) (h2 : b ≤ c) : a ≤ c :=
  Nat.le_trans h h2

theorem phase_t.eq_CREATED_of_not_lt {a : phase_t} (h : ¬ phase_t.CREATED < a) :
    a = phase_t.CREATED := by
  cases a <;> first
    | rfl
    | exact absurd (by simp [phase_t.lt_def, phase_t.toNat]) h

theorem omFind_omInsert_self {α : Type} (k : Nat) (v : α) (m : List (Nat × α)) :
    omFind k (omInsert k v m) = some v := by
  induction m with
  | nil => simp [omInsert, omFind]
  | cons e rest ih =>
    by_cases h1 : k < e.1
    · simp [omInsert, h1, omFind]
    · by_cases h2 : k = e.1
      · simp [omInsert, h1, h2, omFind]
      · simp [omInsert, h1, h2, omFind, ih]

theorem omFind_omInsert_ne {α : Type} {k k2 : Nat} (v : α) (m : List (Nat × α))
    (h : k ≠ k2) : omFind k (omInsert k2 v m) = omFind k m := by
  induction m with
  | nil => simp [omInsert, omFind, h]
  | cons e rest ih =>
    by_cases h1 : k2 < e.1
    · simp [omInsert, h1, omFind, h]
    · by_cases h2 : k2 = e.1
      · subst h2; simp [omInsert, h1, omFind, h]
      · simp [omInsert, h1, h2, omFind, ih]

theorem omFind_omUpdate_self {α : Type} {k : Nat} (v : α) (m : List (Nat × α)) :
    omFind k (omUpdate k v m) = (omFind k m).map fun _ => v := by
  induction m with
  | nil => simp [omUpdate, omFind]
  | cons e rest ih =>
    by_cases h : k = e.1
    · simp [omUpdate, omFind, ← h]
    · have : ¬ e.1 = k := fun hh => h hh.symm
      simp [omUpdate, omFind, h, this, omUpdate] at ih ⊢
      exact ih

theorem omFind_omUpdate_ne {α : Type} {k k2 : Nat} (v : α) (m : List (Nat × α))
    (h : k ≠ k2) : omFind k (omUpdate k2 v m) = omFind k m := by
  induction m with
  | nil => simp [omUpdate, omFind]
  | cons e rest ih =>
    by_cases h1 : e.1 = k2
    · have h2 : ¬ k = e.1 := by rw [h1]; exact h
      simp [omUpdate, omFind, h1, h2, h] at ih ⊢
      exact ih
    · by_cases h2 : k = e.1
      · simp [omUpdate, omFind, h1, h2]
      · simp [omUpdate, omFind, h1, h2] at ih ⊢
        exact ih

theorem omKeys_omUpdate {α : Type} (k : Nat) (v : α) (m : List (Nat × α)) :
    omKeys (omUpdate k v m) = omKeys m := by
  induction m with
  | nil => simp [omUpdate, omKeys]
  | cons e rest ih =>
    by_cases h : e.1 = k
    · simp [omUpdate, omKeys, h] at ih ⊢; exact ih
    · simp [omUpdate, omKeys, h] at ih ⊢; exact ih

theorem omUpdate_omUpdate {α : Type} (k : Nat) (a b : α) (m : List (Nat × α)) :
    omUpdate k a (omUpdate k b m) = omUpdate k a m := by
  induction m with
  | nil => simp [omUpdate]
  | cons e rest ih =>
    by_cases h : e.1 = k
    · simp [omUpdate, h] at ih ⊢; exact ih
    · simp [omUpdate, h] at ih ⊢; exact ih

theorem omLast_omUpdate {α : Type} (k : Nat) (v : α) (m : List (Nat × α)) :
    omLast (omUpdate k v m) =
      (omLast m).map fun e => if e.1 = k then (k, v) else e := by
  simp [omLast, omUpdate, List.getLast?_map]

/-- `entry(k).or_insert(d)` returns the defaulted lookup. -/
theorem omEntryOrInsert_fst {α : Type} (k : Nat) (d : α) (m : List (Nat × α)) :
    (omEntryOrInsert k d m).1 = (omFind k m).getD d := by
  unfold omEntryOrInsert
  cases omFind k m <;> simp

/-- `entry(k).or_insert(d)` does not change any defaulted lookup. -/
theorem omFind_getD_omEntryOrInsert {α : Type} (k w : Nat) (d : α)
    (m : List (Nat × α)) :
    (omFind w (omEntryOrInsert k d m).2).getD d = (omFind w m).getD d := by
  unfold omEntryOrInsert
  cases hf : omFind k m with
  | some v => simp
  | none =>
    by_cases h : w = k
    · subst h; simp [omFind_omInsert_self, hf]
    · simp [omFind_omInsert_ne _ _ h]

/-! ## Record-level lemmas -/

theorem phaseOf_get_phase (r : sync_record_t) (uid w : Nat) :
    phaseOf (r.get_phase uid).2 w = phaseOf r w := by
  simp [sync_record_t.get_phase, phaseOf, omFind_getD_omEntryOrInsert]

theorem get_phase_fst (r : sync_record_t) (uid : Nat) :
    (r.get_phase uid).1 = phaseOf r uid := by
  simp [sync_record_t.get_phase, phaseOf, omEntryOrInsert_fst]

theorem id_get_phase (r : sync_record_t) (uid : Nat) :
    (r.get_phase uid).2.id = r.id := rfl

theorem reports_get_phase (r : sync_record_t) (uid : Nat) :
    (r.get_phase uid).2.reports = r.reports := rfl

theorem actions_get_phase (r : sync_record_t) (uid : Nat) :
    (r.get_phase uid).2.actions = r.actions := rfl

theorem advance_phase_fst (r : sync_record_t) (uid : Nat) (np : phase_t) :
    (r.advance_phase uid np).1 = decide (phaseOf r uid < np) := by
  unfold sync_record_t.advance_phase
  rw [omEntryOrInsert_fst]
  by_cases h : np ≤ (omFind uid r.users_phase).getD phase_t.CREATED
  · have : ¬ (omFind uid r.users_phase).getD phase_t.CREATED < np :=
      fun hlt => absurd (Nat.lt_of_lt_of_le hlt h) (Nat.lt_irrefl _)
    simp [h, phaseOf, this]
  · have : (omFind uid r.users_phase).getD phase_t.CREATED < np :=
      Nat.lt_of_not_le h
    simp [h, phaseOf, this]

theorem phaseOf_advance_phase_self (r : sync_record_t) (uid : Nat) (np : phase_t) :
    phaseOf (r.advance_phase uid np).2 uid =
      if phaseOf r uid < np then np else phaseOf r uid := by
  unfold sync_record_t.advance_phase
  have hfst := omEntryOrInsert_fst uid phase_t.CREATED r.users_phase
  by_cases h : np ≤ (omEntryOrInsert uid phase_t.CREATED r.users_phase).1
  · rw [hfst] at h
    have h2 : np ≤ phaseOf r uid := h
    have hnl : ¬ phaseOf r uid < np := fun hlt =>
      absurd (Nat.lt_of_lt_of_le hlt h2) (Nat.lt_irrefl _)
    rw [if_pos (by rw [hfst]; exact h), if_neg hnl]
    exact omFind_getD_omEntryOrInsert uid uid phase_t.CREATED r.users_phase
  · have h3 : ¬ np ≤ phaseOf r uid := fun hc => h (by rw [hfst]; exact hc)
    have hlt : phaseOf r uid < np := Nat.lt_of_not_le h3
    rw [if_neg h, if_pos hlt]
    show (omFind uid (omInsert uid np
      (omEntryOrInsert uid phase_t.CREATED r.users_phase).2)).getD phase_t.CREATED = np
    rw [omFind_omInsert_self]
    rfl

theorem phaseOf_advance_phase_other (r : sync_record_t) {uid w : Nat} (np : phase_t)
    (h : w ≠ uid) :
    phaseOf (r.advance_phase uid np).2 w = phaseOf r w := by
  unfold sync_record_t.advance_phase
  by_cases hc : np ≤ (omEntryOrInsert uid phase_t.CREATED r.users_phase).1
  · simp only [hc, if_true, phaseOf]
    exact omFind_getD_omEntryOrInsert uid w phase_t.CREATED r.users_phase
  · simp only [hc, if_false, phaseOf]
    rw [omFind_omInsert_ne _ _ h]
    exact omFind_getD_omEntryOrInsert uid w phase_t.CREATED r.users_phase

theorem phaseOf_advance_phase_SYNCED (r : sync_record_t) (uid : Nat) :
    phaseOf (r.advance_phase uid phase_t.SYNCED).2 uid = phase_t.SYNCED := by
  rw [phaseOf_advance_phase_self]
  by_cases h : phaseOf r uid < phase_t.SYNCED
  · simp [h]
  · simp only [h, if_false]
    have h1 : (phaseOf r uid).toNat ≤ 3 := phase_t.toNat_le_three _
    have h2 : ¬ (phaseOf r uid).toNat < 3 := h
    have : (phaseOf r uid).toNat = 3 := Nat.le_antisymm h1 (Nat.le_of_not_lt h2)
    exact phase_t.toNat_inj this

theorem id_advance_phase (r : sync_record_t) (uid : Nat) (np : phase_t) :
    (r.advance_phase uid np).2.id = r.id := by
  unfold sync_record_t.advance_phase
  by_cases h : np ≤ (omEntryOrInsert uid phase_t.CREATED r.users_phase).1 <;> simp [h]

theorem reports_advance_phase (r : sync_record_t) (uid : Nat) (np : phase_t) :
    (r.advance_phase uid np).2.reports = r.reports := by
  unfold sync_record_t.advance_phase
  by_cases h : np ≤ (omEntryOrInsert uid phase_t.CREATED r.users_phase).1 <;> simp [h]

theorem actions_advance_phase (r : sync_record_t) (uid : Nat) (np : phase_t) :
    (r.advance_phase uid np).2.actions = r.actions := by
  unfold sync_record_t.advance_phase
  by_cases h : np ≤ (omEntryOrInsert uid phase_t.CREATED r.users_phase).1 <;> simp [h]

theorem phase_t.le_of_eq {a b : phase_t} (h : a = b) : a ≤ b :=
  h ▸ phase_t.le_refl a

theorem phase_t.CREATED_le (a : phase_t) : phase_t.CREATED ≤ a :=
  Nat.zero_le _


theorem id_add_events (r : sync_record_t) (f : Nat) (nr na : List event_t) :
    (r.add_events f nr na).2.id = r.id := by
  simp only [sync_record_t.add_events]
  repeat' split
  all_goals rfl

theorem actions_add_events (r : sync_record_t) (f : Nat) (nr na : List event_t) :
    (r.add_events f nr na).2.actions = r.actions := by
  simp only [sync_record_t.add_events]
  repeat' split
  all_goals rfl

theorem phaseOf_add_events_other (r : sync_record_t) {f w : Nat}
    (nr na : List event_t) (h : w ≠ f) :
    phaseOf (r.add_events f nr na).2 w = phaseOf r w := by
  have hup : (omFind w (omEntryOrInsert f phase_t.CREATED r.users_phase).2).getD
      phase_t.CREATED = (omFind w r.users_phase).getD phase_t.CREATED :=
    omFind_getD_omEntryOrInsert f w _ _
  simp only [sync_record_t.add_events]
  repeat' split
  all_goals try exact hup
  all_goals
    show (omFind w (omInsert f phase_t.WAITING
        (omEntryOrInsert f phase_t.CREATED r.users_phase).2)).getD phase_t.CREATED
        = phaseOf r w
  all_goals rw [omFind_omInsert_ne _ _ h]
  all_goals exact hup

theorem phaseOf_add_events_self_mono (r : sync_record_t) (f : Nat)
    (nr na : List event_t) :
    phaseOf r f ≤ phaseOf (r.add_events f nr na).2 f := by
  have hup : (omFind f (omEntryOrInsert f phase_t.CREATED r.users_phase).2).getD
      phase_t.CREATED = (omFind f r.users_phase).getD phase_t.CREATED :=
    omFind_getD_omEntryOrInsert f f _ _
  have hfst := omEntryOrInsert_fst f phase_t.CREATED r.users_phase
  have hle : phaseOf r f ≤
      ((omFind f (omEntryOrInsert f phase_t.CREATED r.users_phase).2).getD
        phase_t.CREATED : phase_t) :=
    Nat.le_of_eq (congrArg phase_t.toNat hup.symm)
  simp only [sync_record_t.add_events]
  by_cases hc : phase_t.CREATED < (omEntryOrInsert f phase_t.CREATED r.users_phase).1
  · rw [if_pos hc]
    exact hle
  · rw [if_neg hc]
    cases h1 : (addEventsLoop f "Invalid report from." nr r.reports).1 with
    | error e1 => exact hle
    | ok u1 =>
      cases h2 : (addEventsLoop f "Invalid action from." na
          (addEventsLoop f "Invalid report from." nr r.reports).2).1 with
      | error e2 => exact hle
      | ok u2 =>
        have hCR : phaseOf r f = phase_t.CREATED :=
          phase_t.eq_CREATED_of_not_lt (fun hlt => hc (by rw [hfst]; exact hlt))
        show phaseOf r f ≤ (omFind f (omInsert f phase_t.WAITING
          (omEntryOrInsert f phase_t.CREATED r.users_phase).2)).getD phase_t.CREATED
        rw [omFind_omInsert_self, hCR]
        exact phase_t.CREATED_le _

theorem add_events_error_phases (r : sync_record_t) {f : Nat}
    {nr na : List event_t} {e : AgError}
    (h : (r.add_events f nr na).1 = Except.error e) (w : Nat) :
    phaseOf (r.add_events f nr na).2 w = phaseOf r w := by
  have hup : (omFind w (omEntryOrInsert f phase_t.CREATED r.users_phase).2).getD
      phase_t.CREATED = (omFind w r.users_phase).getD phase_t.CREATED :=
    omFind_getD_omEntryOrInsert f w _ _
  simp only [sync_record_t.add_events] at h ⊢
  by_cases hc : phase_t.CREATED < (omEntryOrInsert f phase_t.CREATED r.users_phase).1
  · rw [if_pos hc]
    exact hup
  · rw [if_neg hc] at h ⊢
    cases h1 : (addEventsLoop f "Invalid report from." nr r.reports).1 with
    | error e1 => exact hup
    | ok u1 =>
      cases h2 : (addEventsLoop f "Invalid action from." na
          (addEventsLoop f "Invalid report from." nr r.reports).2).1 with
      | error e2 => exact hup
      | ok u2 =>
        rw [h1, h2] at h
        simp at h

theorem phaseOf_anyPhaseLeCreated (l : List Nat) (r : sync_record_t) (w : Nat) :
    phaseOf (anyPhaseLeCreated r l).2 w = phaseOf r w := by
  induction l generalizing r with
  | nil => rfl
  | cons uid rest ih =>
    unfold anyPhaseLeCreated
    by_cases hc : (r.get_phase uid).1 ≤ phase_t.CREATED
    · rw [if_pos hc]; exact phaseOf_get_phase r uid w
    · rw [if_neg hc, ih]; exact phaseOf_get_phase r uid w

theorem id_anyPhaseLeCreated (l : List Nat) (r : sync_record_t) :
    (anyPhaseLeCreated r l).2.id = r.id := by
  induction l generalizing r with
  | nil => rfl
  | cons uid rest ih =>
    unfold anyPhaseLeCreated
    by_cases hc : (r.get_phase uid).1 ≤ phase_t.CREATED
    · rw [if_pos hc]; rfl
    · rw [if_neg hc, ih]; rfl

theorem phaseOf_rolloverAny (l : List Nat) (r : sync_record_t) (w : Nat) :
    phaseOf (rolloverAny r l).2 w = phaseOf r w := by
  induction l generalizing r with
  | nil => rfl
  | cons uid rest ih =>
    unfold rolloverAny
    by_cases hc : (r.get_phase uid).1 ≤ phase_t.CREATED
    · rw [if_pos hc]; exact phaseOf_get_phase r uid w
    · rw [if_neg hc]
      by_cases hc2 : phase_t.SYNCED ≤ ((r.get_phase uid).2.get_phase uid).1
      · rw [if_pos hc2, phaseOf_get_phase, phaseOf_get_phase]
      · rw [if_neg hc2, ih, phaseOf_get_phase, phaseOf_get_phase]

theorem id_rolloverAny (l : List Nat) (r : sync_record_t) :
    (rolloverAny r l).2.id = r.id := by
  induction l generalizing r with
  | nil => rfl
  | cons uid rest ih =>
    unfold rolloverAny
    by_cases hc : (r.get_phase uid).1 ≤ phase_t.CREATED
    · rw [if_pos hc]; rfl
    · rw [if_neg hc]
      by_cases hc2 : phase_t.SYNCED ≤ ((r.get_phase uid).2.get_phase uid).1
      · rw [if_pos hc2]; rfl
      · rw [if_neg hc2, ih]; rfl

/-! ## Claim theorems (closed evaluations) -/

/-- C1: the claim says a successful `add_events` merges submitted actions into
the record's actions map so that `get_actions` returns every submitted action.
In the source, the second loop of `add_events` inserts actions into the
*reports* map (`sync_record.rs` line 94), so after a successful submission of
one action the actions map is empty, `get_actions` returns nothing, and the
action shows up in `get_reports` instead; the caller's phase is still set to
`WAITING`.  This theorem evaluates the code at that failing input. -/
theorem C1_add_events_misfiles_actions :
    (((sync_record_t.new 10).add_events 1 [] [exEvGood]).1 = Except.ok ()) ∧
    ((sync_record_t.new 10).add_events 1 [] [exEvGood]).2.get_actions = [] ∧
    ((sync_record_t.new 10).add_events 1 [] [exEvGood]).2.get_reports = [exEvGood] ∧
    phaseOf ((sync_record_t.new 10).add_events 1 [] [exEvGood]).2 1
      = phase_t.WAITING := by
  refine ⟨rfl, rfl, rfl, rfl⟩

/-- C2: the claim says `sync` appends a new record iff *every* member is
`≤ CREATED` or `≥ SYNCED` on the current record.  The source uses
`users.keys().any(...)` (`room.rs` lines 358-363) where its own comment says
"if all users synced"; since the caller has just been finalized at `SYNCED`,
the disjunction holds for the caller and a record is appended on *every*
successful sync.  Here user 2 is still mid-round at `WAITING` on record 10,
yet user 1's sync succeeds and appends record 11. -/
theorem C2_rollover_appends_despite_midround_member :
    ((exRoomMid.sync 1 [] [] 11 5).map fun x =>
      (x.1.isOk, x.2.sync_records.length,
       (omFind 10 x.2.sync_records).map (fun r => phaseOf r 2),
       omContains 11 x.2.sync_records))
    = some (true, 2, some phase_t.WAITING, true) := by
  refine rfl

/-- C3: the claim says a successful `create` below the room limit inserts the
new room into both registry indexes and returns it.  The source performs the
insert as `*lock.rooms.get_mut(&room.id).unwrap() = room.clone()`
(`room_list.rs` lines 87-88): `get_mut` on the freshly generated — hence
absent — key returns `None` and the `unwrap` panics, so no successful create
ever completes (modelled as `none`).  Evaluated on an empty registry with
limit 5 and valid arguments. -/
theorem C3_create_panics_on_insert :
    exRegistry.create "v" exUserA 2 "000000" 7 8 0 = none := by
  refine rfl

/-- C6: the claim says constructing a `User` with an empty or over-32-byte
display name fails with a bad-request error.  In the source (`room.rs` line
33) `user_t::new` calls `this.set_name(name);` and *discards* the returned
`Result`, then returns `Ok(this)` unconditionally: construction never fails,
the invalid name is simply not stored.  `set_name` itself does reject the
same string. -/
theorem C6_new_swallows_name_validation :
    (user_t.new 5 0 "" =
      Except.ok { id := 5, name := "", last_sync_id := 0, last_time := 0 }) ∧
    ((user_t.set_name { id := 5, name := "", last_sync_id := 0, last_time := 0 } "").1
      = Except.error (AgError.BadRequestError
          "Invalid user name length: 0. Must be between 1 and 32.")) ∧
    (user_t.new 5 0 "abcdefghijklmnopqrstuvwxyz0123456" =
      Except.ok { id := 5, name := "", last_sync_id := 0, last_time := 0 }) := by
  refine ⟨rfl, rfl, rfl⟩

/-- C8: the claim says `get_max_phase` returns `CREATED` rather than failing
when no user has been observed.  The source computes
`lock.users_phase.values().max().unwrap()` (`sync_record.rs` line 126), which
panics on an empty phase map (modelled as `none`); on a nonempty map it does
return the maximum. -/
theorem C8_get_max_phase_panics_when_empty :
    (sync_record_t.new 10).get_max_phase = none ∧
    ({ id := 10, reports := [], actions := [],
       users_phase := [(1, phase_t.WAITING), (2, phase_t.SYNCED)] :
       sync_record_t }).get_max_phase = some phase_t.SYNCED := by
  refine ⟨rfl, rfl⟩

/-- C7 counterexample: the claim says `add_events` leaves the record unchanged
whenever it returns a bad-request error.  Submitting `[exEvGood, exEvBad]`
(the second event's `from` is 2 ≠ 1) returns the "Invalid report from." error,
yet `exEvGood` has already been inserted into the reports map, so the record
is *not* unchanged. -/
theorem C7_counterexample_partial_insert :
    (((sync_record_t.new 10).add_events 1 [exEvGood, exEvBad] []).1
      = Except.error (AgError.BadRequestError "Invalid report from.")) ∧
    ¬ (((sync_record_t.new 10).add_events 1 [exEvGood, exEvBad] []).2.reports
      = (sync_record_t.new 10).reports) := by
  refine ⟨rfl, by decide⟩

/-- C10: in `room_t::sync` the result of `add_events` is discarded (`room.rs`
line 315).  With reports `[exEvGood, exEvBad]` submitted by user 1,
`add_events` returns the "Invalid report from." bad-request error after
inserting `exEvGood`; `sync` nevertheless proceeds: it returns `Ok` with the
catch-up slice, the slice's record still contains the previously inserted
event 3, and the caller's phase on it has been advanced to `SYNCED`. -/
theorem C10_sync_discards_add_events_error :
    ((exRecordEmpty.add_events 1 [exEvGood, exEvBad] []).1
      = Except.error (AgError.BadRequestError "Invalid report from.")) ∧
    ((exRoomFresh.sync 1 [exEvGood, exEvBad] [] 11 5).map fun x =>
      (x.1.isOk,
       (x.1.toOption.getD []).map fun r => (omKeys r.reports, phaseOf r 1)))
    = some (true, [([3], phase_t.SYNCED)]) := by
  refine ⟨rfl, rfl⟩

/-- C7 (amended): whenever `add_events` returns a bad-request error, no phase
has been modified (every user's observed phase reads the same) and the
actions map is unchanged; the counterexample above shows that, unlike the
original claim, events processed before the offending mismatch do remain
inserted in the reports map. -/
theorem C7_amended_error_leaves_phases_and_actions (r : sync_record_t)
    (f : Nat) (nr na : List event_t) (e : AgError)
    (h : (r.add_events f nr na).1 = Except.error e) :
    (∀ w, phaseOf (r.add_events f nr na).2 w = phaseOf r w) ∧
    (r.add_events f nr na).2.actions = r.actions :=
  ⟨fun w => add_events_error_phases r h w, actions_add_events r f nr na⟩

/-- Witness for C7: a record whose user 1 is already at `WAITING` rejects a
new submission with "Record already synced." and the amended theorem applies. -/
theorem C7_amended_witness :
    (∀ w, phaseOf ((exRecordMid.add_events 2 [] []).2) w = phaseOf exRecordMid w) ∧
    (exRecordMid.add_events 2 [] []).2.actions = exRecordMid.actions :=
  C7_amended_error_leaves_phases_and_actions exRecordMid 2 [] []
    (AgError.BadRequestError "Record already synced.") rfl

theorem phaseOf_applyRecOp_mono (r : sync_record_t) (op : recOp) (uid : Nat) :
    phaseOf r uid ≤ phaseOf (applyRecOp r op) uid := by
  cases op with
  | addEvents f nr na =>
    by_cases h : uid = f
    · subst h; exact phaseOf_add_events_self_mono r uid nr na
    · exact phase_t.le_of_eq (phaseOf_add_events_other r nr na h).symm
  | advancePhase u np =>
    by_cases h : uid = u
    · subst h
      rw [show applyRecOp r (recOp.advancePhase uid np) = (r.advance_phase uid np).2 from rfl,
          phaseOf_advance_phase_self]
      by_cases h2 : phaseOf r uid < np
      · rw [if_pos h2]; exact Nat.le_of_lt h2
      · rw [if_neg h2]; exact phase_t.le_refl _
    · exact phase_t.le_of_eq (phaseOf_advance_phase_other r np h).symm
  | getPhase u => exact phase_t.le_of_eq (phaseOf_get_phase r u uid).symm

theorem phaseOf_foldl_mono (ops : List recOp) (r : sync_record_t) (uid : Nat) :
    phaseOf r uid ≤ phaseOf (ops.foldl applyRecOp r) uid := by
  induction ops generalizing r with
  | nil => exact phase_t.le_refl _
  | cons op rest ih =>
    exact phase_t.le_trans (phaseOf_applyRecOp_mono r op uid) (ih _)

/-- C9: for every user id and every record, the observed phase never decreases
across any sequence of `add_events`, `advance_phase` and `get_phase`
operations; and `advance_phase(uid, np)` reports an advance exactly when `np`
is strictly greater than the current phase, storing `np` in exactly that case
and leaving the phase unchanged otherwise. -/
theorem C9_phase_monotone_advance_spec (r : sync_record_t) (ops : List recOp)
    (uid : Nat) (np : phase_t) :
    phaseOf r uid ≤ phaseOf (ops.foldl applyRecOp r) uid ∧
    (r.advance_phase uid np).1 = decide (phaseOf r uid < np) ∧
    phaseOf (r.advance_phase uid np).2 uid
      = (if phaseOf r uid < np then np else phaseOf r uid) :=
  ⟨phaseOf_foldl_mono ops r uid, advance_phase_fst r uid np,
   phaseOf_advance_phase_self r uid np⟩

/-- C5: `join(version, user)` fails with bad-request when the version differs
from the room's, with forbidden when the game has started, the room is full,
or the user id is already present; on success the user is inserted and its
`last_sync_id` is the id (key) of the last record when the log holds more
than one record, and the nil UUID (0) otherwise, with `last_time` stamped. -/
theorem C5_join_spec (room : room_t) (version : String) (user : user_t) (now : Nat) :
    (version ≠ room.version →
      room.join version user now = (Except.error (AgError.BadRequestError
        ("Invalid room version: " ++ version ++ ". This roon version is " ++
         room.version ++ ".")), room)) ∧
    (version = room.version → room.in_lobby = false →
      room.join version user now
        = (Except.error (AgError.ForbiddenError "Game already started."), room)) ∧
    (version = room.version → room.in_lobby = true →
      room.size ≤ room.users.length →
      room.join version user now = (Except.error (AgError.ForbiddenError
        ("Room is full. Max user count is " ++ toString room.size ++ ".")), room)) ∧
    (version = room.version → room.in_lobby = true →
      room.users.length < room.size → omContains user.id room.users = true →
      room.join version user now
        = (Except.error (AgError.ForbiddenError "User already in the room."), room)) ∧
    (version = room.version → room.in_lobby = true →
      room.users.length < room.size → omContains user.id room.users = false →
      (room.join version user now).1 = Except.ok () ∧
      ∃ u2, omFind user.id (room.join version user now).2.users = some u2 ∧
        u2.id = user.id ∧ u2.name = user.name ∧ u2.last_time = now ∧
        (1 < room.sync_records.length →
          ∃ le, omLast room.sync_records = some le ∧ u2.last_sync_id = le.1) ∧
        (room.sync_records.length ≤ 1 → u2.last_sync_id = 0)) := by
  refine ⟨?_, ?_, ?_, ?_, ?_⟩
  · intro h1
    unfold room_t.join
    rw [if_pos h1]
  · intro h1 h2
    unfold room_t.join
    rw [if_neg (fun hc => hc h1), if_pos (by rw [h2]; rfl)]
  · intro h1 h2 h3
    unfold room_t.join
    rw [if_neg (fun hc => hc h1), if_neg (by rw [h2]; simp), if_pos h3]
  · intro h1 h2 h3 h4
    unfold room_t.join
    rw [if_neg (fun hc => hc h1), if_neg (by rw [h2]; simp),
        if_neg (Nat.not_le.mpr h3), if_pos h4]
  · intro h1 h2 h3 h4
    unfold room_t.join
    rw [if_neg (fun hc => hc h1), if_neg (by rw [h2]; simp),
        if_neg (Nat.not_le.mpr h3), if_neg (by rw [h4]; simp)]
    dsimp only
    refine ⟨rfl, user.update_last
      (if 1 < room.sync_records.length then
        ((omLast room.sync_records).map (fun e : Nat × sync_record_t => e.1)).getD 0
      else 0) now,
      omFind_omInsert_self _ _ _, rfl, rfl, rfl, ?_, ?_⟩
    · intro h5
      have hne : room.sync_records ≠ [] := by
        intro hh; rw [hh] at h5; simp at h5
      cases hlast : omLast room.sync_records with
      | none =>
        exact absurd (List.getLast?_eq_none_iff.mp hlast) hne
      | some le =>
        refine ⟨le, rfl, ?_⟩
        show (if 1 < room.sync_records.length then
          ((Option.map (fun e : Nat × sync_record_t => e.1) (some le)).getD 0)
          else 0) = le.1
        rw [if_pos h5]
        rfl
    · intro h5
      show (if 1 < room.sync_records.length then
        ((omLast room.sync_records).map (fun e : Nat × sync_record_t => e.1)).getD 0
        else 0) = 0
      rw [if_neg (Nat.not_lt.mpr h5)]

/-- Witness for C5: joining a one-member lobby room succeeds and the new
member's `last_sync_id` is nil because the log holds a single record. -/
theorem C5_join_witness :
    (exRoomSolo.join "v" exUserB 7).1 = Except.ok () ∧
    ∃ u2, omFind exUserB.id (exRoomSolo.join "v" exUserB 7).2.users = some u2 ∧
      u2.id = exUserB.id ∧ u2.name = exUserB.name ∧ u2.last_time = 7 ∧
      (1 < exRoomSolo.sync_records.length →
        ∃ le, omLast exRoomSolo.sync_records = some le ∧ u2.last_sync_id = le.1) ∧
      (exRoomSolo.sync_records.length ≤ 1 → u2.last_sync_id = 0) :=
  (C5_join_spec exRoomSolo "v" exUserB 7).2.2.2.2 rfl rfl (by decide) rfl

theorem omLast_mem {α : Type} {m : List (Nat × α)} {e : Nat × α}
    (h : omLast m = some e) : e ∈ m := by
  induction m with
  | nil => exact absurd h (by simp [omLast])
  | cons x rest ih =>
    cases rest with
    | nil =>
      have hx : x = e := by simpa [omLast] using h
      simp [hx]
    | cons y t =>
      have h2 : omLast (y :: t) = some e := by
        simpa [omLast, List.getLast?_cons_cons] using h
      exact List.mem_cons_of_mem _ (ih h2)

theorem omLast_omUpdate_self {α : Type} {m : List (Nat × α)} {k : Nat}
    {v0 : α} (v : α) (h : omLast m = some (k, v0)) :
    omLast (omUpdate k v m) = some (k, v) := by
  rw [omLast_omUpdate, h]
  simp

theorem goodIds_omUpdate {m : List (Nat × sync_record_t)} (hm : goodIds m)
    {k : Nat} {v : sync_record_t} (hv : v.id = k) : goodIds (omUpdate k v m) := by
  intro e he
  unfold omUpdate at he
  rw [List.mem_map] at he
  obtain ⟨e0, he0, rfl⟩ := he
  by_cases hc : e0.1 = k
  · rw [if_pos hc]; exact hv
  · rw [if_neg hc]; exact hm e0 he0

theorem omKeys_advanceRange (uid c : Nat) (m : List (Nat × sync_record_t)) :
    omKeys (advanceRange uid c m) = omKeys m := by
  induction m with
  | nil => rfl
  | cons e rest ih =>
    unfold advanceRange omKeys at ih ⊢
    simp only [List.map_cons]
    by_cases hc : c < e.1
    · rw [if_pos hc]
      exact congrArg _ ih
    · rw [if_neg hc]
      exact congrArg _ ih

theorem slice_ids (uid c : Nat) (m : List (Nat × sync_record_t))
    (hm : goodIds m) :
    (((advanceRange uid c m).filter fun e => decide (c < e.1)).map (·.2)).map
      (fun r => r.id)
    = (omKeys m).filter fun k => decide (c < k) := by
  induction m with
  | nil => rfl
  | cons e rest ih =>
    have he : e.2.id = e.1 := hm e (List.mem_cons_self _ _)
    have hrest : goodIds rest := fun x hx => hm x (List.mem_cons_of_mem _ hx)
    specialize ih hrest
    unfold advanceRange omKeys at ih ⊢
    simp only [List.map_cons]
    by_cases hc : c < e.1
    · rw [if_pos hc]
      rw [List.filter_cons, List.filter_cons]
      simp only [decide_eq_true hc, if_pos]
      simp only [List.map_cons, ih, id_advance_phase, he]
    · rw [if_neg hc]
      rw [List.filter_cons, List.filter_cons]
      have : decide (c < e.1) = false := decide_eq_false hc
      simp only [this]
      simpa using ih

theorem slice_phases (uid c : Nat) (m : List (Nat × sync_record_t)) :
    ∀ r ∈ ((advanceRange uid c m).filter fun e => decide (c < e.1)).map (·.2),
      phaseOf r uid = phase_t.SYNCED := by
  intro r hr
  rw [List.mem_map] at hr
  obtain ⟨e, he, rfl⟩ := hr
  rw [List.mem_filter] at he
  obtain ⟨he1, he2⟩ := he
  unfold advanceRange at he1
  rw [List.mem_map] at he1
  obtain ⟨e0, he0, rfl⟩ := he1
  by_cases hc : c < e0.1
  · rw [if_pos hc]
    exact phaseOf_advance_phase_SYNCED e0.2 uid
  · rw [if_neg hc] at he2
    exact absurd (of_decide_eq_true he2) hc

theorem syncFinish_props (room : room_t) (uid rid : Nat)
    (record0 record3 : sync_record_t) (recs3 : List (Nat × sync_record_t))
    (nrid now : Nat) (u : user_t)
    (hfind : omFind uid room.users = some u)
    (hgood : goodIds recs3)
    (hid3 : record3.id = rid) :
    ∃ slice room2,
      room.syncFinish uid rid record0 record3 recs3 nrid now
        = some (Except.ok slice, room2) ∧
      slice.map (fun r => r.id)
        = (omKeys recs3).filter (fun k => decide (u.last_sync_id < k)) ∧
      (∀ r ∈ slice, phaseOf r uid = phase_t.SYNCED) ∧
      omFind uid room2.users = some (u.update_last record0.id now) := by
  have hid4 : ((record3.advance_phase uid phase_t.SYNCING).2).id = rid := by
    rw [id_advance_phase]; exact hid3
  have hid5 : ((anyPhaseLeCreated (record3.advance_phase uid phase_t.SYNCING).2
      (omKeys room.users)).2).id = rid := by
    rw [id_anyPhaseLeCreated]; exact hid4
  have hid6 : (((anyPhaseLeCreated (record3.advance_phase uid phase_t.SYNCING).2
      (omKeys room.users)).2.advance_phase uid phase_t.SYNCED).2).id = rid := by
    rw [id_advance_phase]; exact hid5
  unfold room_t.syncFinish
  rw [hfind]
  refine ⟨_, _, rfl, ?_, ?_, ?_⟩
  · dsimp only
    rw [omUpdate_omUpdate, omUpdate_omUpdate]
    rw [slice_ids uid u.last_sync_id _ (goodIds_omUpdate hgood hid6)]
    rw [omKeys_omUpdate]
  · dsimp only
    intro r hr
    rw [omUpdate_omUpdate, omUpdate_omUpdate] at hr
    exact slice_phases uid u.last_sync_id _ r hr
  · dsimp only
    exact omFind_omInsert_self _ _ _

/-- C4: every successful `sync` returns, in log order, exactly the records
whose id (= key) is strictly greater than the caller's `last_sync_id` at
entry (nil = 0 meaning all of them), advances the caller's phase to `SYNCED`
on each returned record, and afterwards sets the caller's bookmark with
`update_last` to the id of the record that was last at entry — not any
freshly appended record — stamping `last_time = now`.  `hkeys` is the log
well-formedness invariant (each record is stored under its own id). -/
theorem C4_sync_catchup_and_bookmark (room : room_t) (uid : Nat) (reports actions : List event_t)
    (nrid now : Nat) (slice : List sync_record_t) (room2 : room_t)
    (hkeys : goodIds room.sync_records)
    (h : room.sync uid reports actions nrid now = some (Except.ok slice, room2)) :
    ∃ u, omFind uid room.users = some u ∧
      slice.map (fun r => r.id)
        = (omKeys room.sync_records).filter (fun k => decide (u.last_sync_id < k)) ∧
      (∀ r ∈ slice, phaseOf r uid = phase_t.SYNCED) ∧
      ∃ rid record0, omLast room.sync_records = some (rid, record0) ∧
        omFind uid room2.users = some (u.update_last record0.id now) := by
  unfold room_t.sync at h
  split at h
  · simp at h
  · next hcont =>
    have hB : omContains uid room.users = true := by
      revert hcont; cases omContains uid room.users <;> simp
    have hBs : (omFind uid room.users).isSome := hB
    rw [Option.isSome_iff_exists] at hBs
    obtain ⟨u, hfind⟩ := hBs
    split at h
    · simp at h
    · next rid record0 heq =>
      have hrid0 : record0.id = rid := hkeys (rid, record0) (omLast_mem heq)
      have hrid1 : (record0.get_phase uid).2.id = rid := by
        rw [id_get_phase]; exact hrid0
      have hrid2 : ((record0.get_phase uid).2.add_events uid reports actions).2.id
          = rid := by
        rw [id_add_events, id_get_phase]; exact hrid0
      dsimp only at h
      split at h
      · simp at h
      · split at h
        · simp at h
        · next mp hmp =>
          split at h
          · simp at h
          · split at h
            · simp at h
            · next mp2 hmp2 =>
              split at h
              · exact Option.noConfusion h
              · next record3 recs3 hwait =>
                have hlast2 : omLast (omUpdate rid
                    ((record0.get_phase uid).2.add_events uid reports actions).2
                    (omUpdate rid (record0.get_phase uid).2 room.sync_records))
                    = some (rid,
                      ((record0.get_phase uid).2.add_events uid reports actions).2) :=
                  omLast_omUpdate_self _ (omLast_omUpdate_self _ heq)
                by_cases hcond : mp2 ≤ phase_t.WAITING ∧ 1 <
                    (omUpdate rid
                      ((record0.get_phase uid).2.add_events uid reports actions).2
                      (omUpdate rid (record0.get_phase uid).2 room.sync_records)).length
                · rw [if_pos hcond, hlast2] at hwait
                  dsimp only at hwait
                  rw [if_pos rfl] at hwait
                  simp only [Option.some.injEq, Prod.mk.injEq] at hwait
                  obtain ⟨h3, hR⟩ := hwait
                  have hid3 : record3.id = rid := by
                    rw [← h3, id_get_phase]; exact hrid2
                  have hgood : goodIds recs3 := by
                    rw [← hR, omUpdate_omUpdate, omUpdate_omUpdate]
                    exact goodIds_omUpdate hkeys (by rw [id_get_phase]; exact hrid2)
                  have hkeyseq : omKeys recs3 = omKeys room.sync_records := by
                    rw [← hR, omKeys_omUpdate, omKeys_omUpdate, omKeys_omUpdate]
                  obtain ⟨sl2, rm2, hfin, hids, hph, hbk⟩ :=
                    syncFinish_props room uid rid record0 record3 recs3 nrid now u
                      hfind hgood hid3
                  have hsame := hfin.symm.trans h
                  simp only [Option.some.injEq, Prod.mk.injEq, Except.ok.injEq] at hsame
                  obtain ⟨hsl, hrm⟩ := hsame
                  refine ⟨u, hfind, ?_, ?_, rid, record0, heq, ?_⟩
                  · rw [← hsl, hids, hkeyseq]
                  · intro r hr; exact hph r (hsl ▸ hr)
                  · rw [← hrm]; exact hbk
                · rw [if_neg hcond] at hwait
                  simp only [Option.some.injEq, Prod.mk.injEq] at hwait
                  obtain ⟨h3, hR⟩ := hwait
                  have hid3 : record3.id = rid := by
                    rw [← h3]; exact hrid2
                  have hgood : goodIds recs3 := by
                    rw [← hR, omUpdate_omUpdate]
                    exact goodIds_omUpdate hkeys hrid2
                  have hkeyseq : omKeys recs3 = omKeys room.sync_records := by
                    rw [← hR, omKeys_omUpdate, omKeys_omUpdate]
                  obtain ⟨sl2, rm2, hfin, hids, hph, hbk⟩ :=
                    syncFinish_props room uid rid record0 record3 recs3 nrid now u
                      hfind hgood hid3
                  have hsame := hfin.symm.trans h
                  simp only [Option.some.injEq, Prod.mk.injEq, Except.ok.injEq] at hsame
                  obtain ⟨hsl, hrm⟩ := hsame
                  refine ⟨u, hfind, ?_, ?_, rid, record0, heq, ?_⟩
                  · rw [← hsl, hids, hkeyseq]
                  · intro r hr; exact hph r (hsl ▸ hr)
                  · rw [← hrm]; exact hbk

/-- Witness for C4: a successful sync in a one-member room with one empty
record; the slice is the whole log and the bookmark advances to record 10. -/
theorem C4_sync_witness :
    ∃ slice room2,
      exRoomSolo.sync 1 [] [] 11 5 = some (Except.ok slice, room2) ∧
      ∃ u, omFind 1 exRoomSolo.users = some u ∧
        slice.map (fun r => r.id)
          = (omKeys exRoomSolo.sync_records).filter
              (fun k => decide (u.last_sync_id < k)) ∧
        (∀ r ∈ slice, phaseOf r 1 = phase_t.SYNCED) ∧
        ∃ rid record0, omLast exRoomSolo.sync_records = some (rid, record0) ∧
          omFind 1 room2.users = some (u.update_last record0.id 5) :=
  ⟨_, _, rfl, C4_sync_catchup_and_bookmark exRoomSolo 1 [] [] 11 5 _ _
    (by decide) rfl⟩
